import Mathlib

/-
  Verification of the legionJS class system (src/legion/class.js).

  The JavaScript code is shallowly embedded as follows:
  - JS objects/instances are insertion-ordered association lists from
    property names to values (`Obj`); property assignment updates an
    existing key in place and appends a new key, matching for-in
    enumeration order of modern JS engines for string keys.
  - Prototype chains are flattened: `new C()` produces an instance whose
    readable properties are exactly those of `C.prototype`, so an
    instance is modelled as a copy of the prototype map.  Prototypes are
    never mutated after a Type is produced, and instance writes go to
    the copy, so property reads/writes are observationally the same as
    with a real prototype chain for everything modelled here.
  - Function values are defunctionalized: `Fn.body b` is one of the
    concrete function bodies appearing in class.js (or a small test
    body), and `Fn.wrapped child parentF` is the closure returned by
    `createParent(child, parentF)`.
  - The evaluator `evalFn` threads the instance (`this`), the global
    state (class registry, warning-log count, a test counter, and the
    `extending` suppression flag) and uses fuel for dynamic calls;
    exceptions are `Except.error`, and a thrown exception carries the
    mutated instance state with it (JS exceptions do not roll back
    assignments).
-/

namespace Legion

/-- JS runtime faults: calling a non-function (`TypeError`), an explicit
`throw` in a test body, and fuel exhaustion of the bounded evaluator. -/
inductive Err where
  | typeError
  | thrown
  | outOfFuel
deriving DecidableEq, Repr

/-- Defunctionalized function bodies.  `retStr`/`retNum`/`throwErr` are
concrete test bodies; `concatParent s` is `function() { return s + this.parent(); }`;
the remaining constructors are the bodies of the base-class methods in
class.js (`init`, `mixin`, `_bindGame`, `serialize`), the constructor
body of every produced Class (`classCtor`), and a test `init` that
increments a global counter (`countingInit`). -/
inductive Body where
  | retStr (s : String)
  | retNum (n : Int)
  | concatParent (s : String)
  | throwErr
  | initBody
  | mixinBody
  | bindGameBody
  | serializeBody
  | classCtor
  | countingInit
deriving DecidableEq, Repr

/-- A JS function value: either a plain body, or the wrapper returned by
`createParent(child, parentF)` in class.js. -/
inductive Fn where
  | body (b : Body)
  | wrapped (child parentF : Fn)
deriving DecidableEq, Repr

/-- JS values.  `vTy proto` is a constructor function produced by the
class system, identified by its (flattened) prototype. -/
inductive Value where
  | vNull
  | vUndefined
  | vBool (b : Bool)
  | vNum (n : Int)
  | vStr (s : String)
  | vFun (f : Fn)
  | vObj (fields : List (String × Value))
  | vArr (elems : List Value)
  | vTy (proto : List (String × Value))

/-- A JS object: insertion-ordered property list. -/
abbrev Obj := List (String × Value)

/-- Property read (`o[k]`); a missing property reads as `undefined`. -/
def objGet : Obj → String → Value
  | [], _ => .vUndefined
  | (k, v) :: rest, key => if k = key then v else objGet rest key

/-- Property write (`o[k] = v`): update in place, append if new. -/
def objSet : Obj → String → Value → Obj
  | [], key, val => [(key, val)]
  | (k, v) :: rest, key, val =>
      if k = key then (k, val) :: rest else (k, v) :: objSet rest key val

/-- The JS `in` operator on the flattened object. -/
def objHas : Obj → String → Bool
  | [], _ => false
  | (k, _) :: rest, key => if k = key then true else objHas rest key

/-- `typeof v === 'function'`: true for plain functions and for
constructor functions. -/
def isFun : Value → Bool
  | .vFun _ => true
  | .vTy _ => true
  | _ => false

/-- `v === null`. -/
def isNull : Value → Bool
  | .vNull => true
  | _ => false

/-- JS truthiness. -/
def toBool : Value → Bool
  | .vNull => false
  | .vUndefined => false
  | .vBool b => b
  | .vNum n => n != 0
  | .vStr s => s ≠ ""
  | .vFun _ => true
  | .vObj _ => true
  | .vArr _ => true
  | .vTy _ => true

/-- `v instanceof Object`: true exactly for non-primitive values
(objects, arrays, functions, constructors). -/
def instanceOfObject : Value → Bool
  | .vObj _ => true
  | .vArr _ => true
  | .vFun _ => true
  | .vTy _ => true
  | _ => false

/-- View a value as a callable.  A constructor function is callable as a
plain function: its body is the shared Class constructor body. -/
def toFn : Value → Option Fn
  | .vFun f => some f
  | .vTy _ => some (.body .classCtor)
  | _ => none

/-- JS string coercion for the values this model needs (used by `+` on
strings and by property-key coercion).  JS stringifies an array by
joining its coerced elements with commas; no operation reached by any
claim coerces an array to a string (arrays only ever appear as the
argument of `implement`), so that one case is left as the empty string
rather than forcing the definition into well-founded recursion. -/
def jsToString : Value → String
  | .vNull => "null"
  | .vUndefined => "undefined"
  | .vBool b => if b then "true" else "false"
  | .vNum n => toString n
  | .vStr s => s
  | .vFun _ => "function"
  | .vObj _ => "[object Object]"
  | .vTy _ => "function"
  | .vArr _ => ""

/-- The key/value pairs a `for (var key in v)` loop visits.  Primitives,
`null` and `undefined` yield no iterations; arrays yield their indices
in ascending order.  (A `for-in` directly over a raw constructor would
visit its own `extend`/`implement`/`_extendSingle` properties; the class
system only ever enumerates a constructor after instantiating it, so
that case is unreachable here and yields `[]`.) -/
def enumFields : Value → List (String × Value)
  | .vObj fs => fs
  | .vArr es => es.enum.map fun p => (toString p.1, p.2)
  | _ => []

/-- Property read on an arbitrary value (only objects have readable
modelled properties). -/
def valGet : Value → String → Value
  | .vObj fs, k => objGet fs k
  | _, _ => .vUndefined

/-- The fields of a value used as `this` for a method call on it. -/
def gameFields : Value → Obj
  | .vObj fs => fs
  | _ => []

/-- The registry `legion._classes`, mapping class names to produced
Types (represented by their prototypes). -/
abbrev Registry := List (String × Obj)

/-- Registry write: last writer for a name wins. -/
def regSet : Registry → String → Obj → Registry
  | [], key, t => [(key, t)]
  | (k, t0) :: rest, key, t =>
      if k = key then (k, t) :: rest else (k, t0) :: regSet rest key t

/-- Process-wide mutable state: the class registry, the number of
unsafe-mixin warnings logged via `legion.log`, a test counter that only
the `countingInit` body touches, and the `extending` flag that
suppresses constructors during extension. -/
structure Global where
  classes : Registry
  logCount : Nat
  counter : Nat
  extending : Bool

/-- The initial global state. -/
def g0 : Global := ⟨[], 0, 0, false⟩

/-- The body of `mixin`'s loop:
`for key in properties: if (typeof properties[key] !== 'function' || !(key in this) || !safe) this[key] = properties[key] else legion.log(...)`. -/
def runMixin : Obj → List (String × Value) → Bool → Global → Obj × Global
  | o, [], _, g => (o, g)
  | o, (k, v) :: rest, safe, g =>
      if !(isFun v) || !(objHas o k) || !safe then
        runMixin (objSet o k v) rest safe g
      else
        runMixin o rest safe { g with logCount := g.logCount + 1 }

/-- Result of evaluating a call: the updated `this`, the updated global
state, and either the returned value or a propagating exception. -/
abbrev EvalRes := Obj × Global × Except Err Value

/-- The evaluator.  Fuel is consumed only when one function dynamically
invokes another; straight-line bodies run at any fuel.  The `wrapped`
case is `createParent` from class.js: save `this.parent`, bind the
overridden implementation as `this.parent`, run the child, restore on
normal return only (an exception propagates before the restore line
runs).  `_bindGame`'s call to `game._getObjectID()` runs with the game's
fields as `this`; the game is an external collaborator modelled by
value, so its own mutations are not observed. -/
def evalFn (fuel : Nat) (fn : Fn) (o : Obj) (args : List Value) (g : Global) : EvalRes :=
  match fn with
  | .wrapped c p =>
      let tmp := objGet o "parent"
      let o1 := objSet o "parent" (.vFun p)
      match fuel with
      | 0 => (o1, g, .error .outOfFuel)
      | n + 1 =>
          match evalFn n c o1 args g with
          | (o2, g2, .ok v) => (objSet o2 "parent" tmp, g2, .ok v)
          | (o2, g2, .error e) => (o2, g2, .error e)
  | .body (.retStr s) => (o, g, .ok (.vStr s))
  | .body (.retNum n) => (o, g, .ok (.vNum n))
  | .body .throwErr => (o, g, .error .thrown)
  | .body (.concatParent s) =>
      match objGet o "parent" with
      | .vFun pf =>
          match fuel with
          | 0 => (o, g, .error .outOfFuel)
          | n + 1 =>
              match evalFn n pf o [] g with
              | (o2, g2, .ok v) => (o2, g2, .ok (.vStr (s ++ jsToString v)))
              | (o2, g2, .error e) => (o2, g2, .error e)
      | _ => (o, g, .error .typeError)
  | .body .initBody =>
      match objGet o "mixin" with
      | .vFun mf =>
          match fuel with
          | 0 => (o, g, .error .outOfFuel)
          | n + 1 =>
              match evalFn n mf o [args.getD 0 .vUndefined, .vBool true] g with
              | (o2, g2, .ok _) => (o2, g2, .ok .vUndefined)
              | (o2, g2, .error e) => (o2, g2, .error e)
      | _ => (o, g, .error .typeError)
  | .body .mixinBody =>
      let props := args.getD 0 .vUndefined
      let safe := args.getD 1 .vUndefined
      let r := runMixin o (enumFields props) (toBool safe) g
      (r.1, r.2, .ok (.vObj r.1))
  | .body .bindGameBody =>
      let game := args.getD 0 .vUndefined
      let o1 := objSet o "game" game
      if toBool game then
        if isNull (objGet o1 "id") then
          match valGet game "_getObjectID" with
          | .vFun f =>
              match fuel with
              | 0 => (o1, g, .error .outOfFuel)
              | n + 1 =>
                  match evalFn n f (gameFields game) [] g with
                  | (_, g', .ok v) =>
                      let o2 := objSet o1 "id" v
                      let o3 :=
                        if isNull (objGet o2 "clientID") then
                          objSet o2 "clientID" (valGet game "clientID")
                        else o2
                      (o3, g', .ok .vUndefined)
                  | (_, g', .error e) => (o1, g', .error e)
          | _ => (o1, g, .error .typeError)
        else
          let o3 :=
            if isNull (objGet o1 "clientID") then
              objSet o1 "clientID" (valGet game "clientID")
            else o1
          (o3, g, .ok .vUndefined)
      else (o1, g, .ok .vUndefined)
  | .body .serializeBody =>
      (o, g, .ok (.vObj [("id", objGet o "id"), ("clientID", objGet o "clientID"),
                         ("className", objGet o "className")]))
  | .body .classCtor =>
      if g.extending then (o, g, .ok .vUndefined)
      else
        match objGet o "init" with
        | .vFun f =>
            match fuel with
            | 0 => (o, g, .error .outOfFuel)
            | n + 1 =>
                match evalFn n f o args g with
                | (o2, g2, .ok _) => (o2, g2, .ok .vUndefined)
                | (o2, g2, .error e) => (o2, g2, .error e)
        | _ => (o, g, .error .typeError)
  | .body .countingInit => (o, { g with counter := g.counter + 1 }, .ok .vUndefined)

/-- `new C(args)`: the Class constructor body is
`function() { if (!extending) { this.init.apply(this, arguments); } }`.
With the `extending` flag set the instance is a bare copy of the
prototype; otherwise `init` runs on it (a missing or non-function `init`
is a TypeError, and an exception in `init` propagates out of `new`). -/
def newObj (fuel : Nat) (proto : Obj) (args : List Value) (g : Global) :
    Obj × Global × Except Err Unit :=
  if g.extending then (proto, g, .ok ())
  else
    match objGet proto "init" with
    | .vFun f =>
        match evalFn fuel f proto args g with
        | (o, g', .ok _) => (o, g', .ok ())
        | (o, g', .error e) => (o, g', .error e)
    | _ => (proto, g, .error .typeError)

/-- The value written for key `k` in `_extendSingle`'s copy loop: when
both `child[key]` and `Class.prototype[key]` have typeof `'function'`
the slot gets `createParent(child[key], Class.prototype[key])`,
otherwise it gets `child[key]` unchanged. -/
def mergedVal (pr : Obj) (k : String) (v : Value) : Value :=
  match toFn v, toFn (objGet pr k) with
  | some cf, some pf => .vFun (.wrapped cf pf)
  | _, _ => v

/-- `for (var key in child) { ... }` of `_extendSingle`: assign every
enumerated child property onto the new prototype, wrapping overridden
methods.  Reads of `Class.prototype[key]` see the assignments already
made by earlier iterations. -/
def assignChild : Obj → List (String × Value) → Obj
  | pr, [] => pr
  | pr, (k, v) :: rest => assignChild (objSet pr k (mergedVal pr k v)) rest

/-- `_extendSingle(child)` from class.js.  A function-valued child is
first instantiated with the `extending` flag set (a plain function's
instance has no enumerable properties; a constructor's instance is a
copy of its prototype); then the new prototype is an instance of the
current Type, also built with the flag set; then the child's enumerated
properties are assigned; finally the produced Type is registered in
`legion._classes` under `Class.prototype.className`. -/
def extendSingle (thisProto : Obj) (child : Value) (g : Global) : Obj × Global :=
  let step1 : Value × Global :=
    match child with
    | .vTy pr =>
        let r := newObj 0 pr [] { g with extending := true }
        (.vObj r.1, { r.2.1 with extending := false })
    | .vFun _ =>
        let r := newObj 0 [] [] { g with extending := true }
        (.vObj r.1, { r.2.1 with extending := false })
    | _ => (child, g)
  let child' := step1.1
  let r2 := newObj 0 thisProto [] { step1.2 with extending := true }
  let g3 := { r2.2.1 with extending := false }
  let newProto := assignChild r2.1 (enumFields child')
  (newProto,
   { g3 with classes := regSet g3.classes (jsToString (objGet newProto "className")) newProto })

/-- `extend(child)` from class.js: `if (child instanceof Object) return this._extendSingle(child);`
— a primitive input falls through with no returned Type and no state
change. -/
def extend (thisProto : Obj) (child : Value) (g : Global) : Option Obj × Global :=
  if instanceOfObject child then
    let r := extendSingle thisProto child g
    (some r.1, r.2)
  else (none, g)

/-- The loop of `implement` over an array argument: each element
extends the Type accumulated so far. -/
def implementLoop : Obj → List Value → Global → Obj × Global
  | t, [], g => (t, g)
  | t, d :: ds, g =>
      let r := extendSingle t d g
      implementLoop r.1 ds r.2

/-- `implement(child)` from class.js: an array is folded through
`_extendSingle` left to right, anything else goes to `_extendSingle`
directly. -/
def implement (thisProto : Obj) (child : Value) (g : Global) : Obj × Global :=
  match child with
  | .vArr ds => implementLoop thisProto ds g
  | _ => extendSingle thisProto child g

/-- A method call `o.name(args)`: look the property up on the instance
and invoke it (TypeError if it is not a function). -/
def callMethod (fuel : Nat) (o : Obj) (name : String) (args : List Value) (g : Global) :
    EvalRes :=
  match objGet o name with
  | .vFun f => evalFn fuel f o args g
  | _ => (o, g, .error .typeError)

/-- The base-class definition object passed to `_extendSingle` at the
bottom of class.js, in source order. -/
def baseClassDef : Obj :=
  [("className", .vStr "Class"),
   ("game", .vNull),
   ("id", .vNull),
   ("clientID", .vNull),
   ("init", .vFun (.body .initBody)),
   ("mixin", .vFun (.body .mixinBody)),
   ("_bindGame", .vFun (.body .bindGameBody)),
   ("serialize", .vFun (.body .serializeBody))]

/-- The bootstrap `_extendSingle.call(function() {}, {...})` producing
the base legion Class: the receiver is a plain anonymous function, whose
instances have no enumerable properties (the empty prototype). -/
def legionBase : Obj × Global := extendSingle [] (.vObj baseClassDef) g0

/-- The prototype of the base legion Class. -/
def legionBaseProto : Obj := legionBase.1

/-- The global state right after the base Class is produced. -/
def legionG : Global := legionBase.2

/-- A definition object overriding only `speak` with
`function() { return s + this.parent(); }`. -/
def speakOverride (s : String) : Value :=
  .vObj [("speak", .vFun (.body (.concatParent s)))]

/-- A chain of extensions each overriding `speak`, applied left to
right: the head of the list is the first (innermost) override, the last
element the outermost one. -/
def chainProto : Obj → List String → Global → Obj × Global
  | p, [], g => (p, g)
  | p, s :: rest, g =>
      let r := extendSingle p (speakOverride s) g
      chainProto r.1 rest r.2

/-- The nest of `createParent` wrappers such a chain builds around the
base implementation, innermost override first. -/
def wrapChain : Fn → List String → Fn
  | f, [] => f
  | f, s :: rest => wrapChain (.wrapped (.body (.concatParent s)) f) rest

/-- The string such a chain returns: each override prepends its prefix
to its parent's result, so the outermost (last) override contributes the
leftmost prefix and the base implementation the rightmost part. -/
def chainStr : List String → String → String
  | [], r => r
  | s :: rest, r => chainStr rest (s ++ r)

/-- A prototype whose `init` increments the global test counter —
and does nothing else — so the counter observes exactly whether `init`
ever ran. -/
def countedProto : Obj :=
  [("className", .vStr "Counted"), ("init", .vFun (.body .countingInit))]

/-- The `Base` Type of the end-to-end scenario: `className: 'Base'`,
`speak` returning `'base'`. -/
def c1Base : Obj × Global :=
  extendSingle legionBaseProto
    (.vObj [("className", .vStr "Base"), ("speak", .vFun (.body (.retStr "base")))]) legionG

/-- The `Child` Type of the end-to-end scenario: `speak` overridden to
return `'child-' + this.parent()`. -/
def c1Child : Obj × Global := chainProto c1Base.1 ["child-"] c1Base.2

/-- A sample incoming function value for the mixin scenarios. -/
def fooFn : Fn := .body (.retStr "x")

/-- A sample game context: a `clientID` and an identifier allocator. -/
def gameA : Value :=
  .vObj [("clientID", .vStr "clientA"), ("_getObjectID", .vFun (.body (.retNum 42)))]

/-- A second, different game context. -/
def gameB : Value :=
  .vObj [("clientID", .vStr "clientB"), ("_getObjectID", .vFun (.body (.retNum 99)))]

/-- Reading back the key just written. -/
theorem objGet_objSet_self (o : Obj) (k : String) (v : Value) :
    objGet (objSet o k v) k = v := by
  induction o with
  | nil => simp [objGet, objSet]
  | cons hd t ih =>
      obtain ⟨k', v'⟩ := hd
      by_cases hk : k' = k <;> simp [objGet, objSet, hk, ih]

/-- Writing one key leaves every other key's value unchanged. -/
theorem objGet_objSet_ne (o : Obj) (k k' : String) (v : Value) (h : k ≠ k') :
    objGet (objSet o k v) k' = objGet o k' := by
  induction o with
  | nil => simp [objGet, objSet, h]
  | cons hd t ih =>
      obtain ⟨k0, v0⟩ := hd
      by_cases hk : k0 = k
      · subst hk; simp [objGet, objSet, h]
      · simp [objGet, objSet, hk, ih]

/-- `_extendSingle` leaves the `extending` flag cleared. -/
theorem extendSingle_extending (p : Obj) (child : Value) (g : Global) :
    ((extendSingle p child g).2).extending = false := by
  cases child <;> simp [extendSingle, newObj]

/-- `_extendSingle` never touches the test counter: both of its
internal instantiations run with the `extending` flag set, so no `init`
body can execute. -/
theorem extendSingle_counter (p : Obj) (child : Value) (g : Global) :
    ((extendSingle p child g).2).counter = g.counter := by
  cases child <;> simp [extendSingle, newObj]

/-- The `implement` loop never touches the test counter. -/
theorem implementLoop_counter (ds : List Value) :
    ∀ (p : Obj) (g : Global), ((implementLoop p ds g).2).counter = g.counter := by
  induction ds with
  | nil => intro p g; rfl
  | cons d t ih =>
      intro p g
      simp [implementLoop]
      rw [ih, extendSingle_counter]

/-- The copy loop of `_extendSingle` does not change a prototype key
that the child definition does not mention. -/
theorem assignChild_objGet_not_has (fs : List (String × Value)) :
    ∀ (pr : Obj) (k : String), objHas fs k = false →
      objGet (assignChild pr fs) k = objGet pr k := by
  induction fs with
  | nil => intro pr k _; rfl
  | cons hd t ih =>
      obtain ⟨k', v⟩ := hd
      intro pr k h
      by_cases hk : k' = k
      · subst hk; simp [objHas] at h
      · simp only [objHas, if_neg hk] at h
        simp only [assignChild]
        rw [ih _ _ h, objGet_objSet_ne _ _ _ _ hk]

/-- The prototype produced by `_extendSingle` on a plain-object child is
the current prototype with the child's properties assigned over it. -/
theorem extendSingle_vObj_proto (p : Obj) (fs : List (String × Value)) (g : Global) :
    (extendSingle p (.vObj fs) g).1 = assignChild p fs := by
  simp [extendSingle, newObj, enumFields]

/-- The registry update performed by `_extendSingle` on a plain-object
child, keyed by the new prototype's `className`. -/
theorem extendSingle_vObj_classes (p : Obj) (fs : List (String × Value)) (g : Global) :
    ((extendSingle p (.vObj fs) g).2).classes
      = regSet g.classes (jsToString (objGet (assignChild p fs) "className"))
          (assignChild p fs) := by
  simp [extendSingle, newObj, enumFields]

/-- Claim C2, counterexample: on an instance whose existing `foo` is the
non-function value `5`, mixing in a function-valued `foo` in safe mode
is skipped by the code (with a warning logged), although the assignment
would not overwrite an existing function-valued property — so the
claim's "skips exactly when it would overwrite an existing
function-valued property" is false at this input. -/
theorem c2_counterexample :
    isFun (objGet [("foo", .vNum 5)] "foo") = false
  ∧ isFun (.vFun fooFn) = true
  ∧ (runMixin [("foo", .vNum 5)] [("foo", .vFun fooFn)] true g0).1 = [("foo", .vNum 5)]
  ∧ ((runMixin [("foo", .vNum 5)] [("foo", .vFun fooFn)] true g0).2).logCount = 1
  ∧ Value.vNum 5 ≠ .vFun fooFn := by
  refine ⟨rfl, rfl, rfl, rfl, ?_⟩
  intro h
  exact Value.noConfusion h

/-- Claim C2 as amended: with `safe` false every enumerated key is
copied unconditionally; with `safe` true a key is skipped (counting one
warning) exactly when the incoming value is a function AND the key is
already present on the instance, whatever the type of the existing
value; and `mixin` returns the (updated) instance. -/
theorem c2_mixin_semantics :
    (∀ (o : Obj) (ps : List (String × Value)) (g : Global),
        runMixin o ps false g = (ps.foldl (fun a kv => objSet a kv.1 kv.2) o, g))
  ∧ (∀ (o : Obj) (k : String) (v : Value) (ps : List (String × Value)) (g : Global),
        runMixin o ((k, v) :: ps) true g
          = if isFun v && objHas o k then
              runMixin o ps true { g with logCount := g.logCount + 1 }
            else runMixin (objSet o k v) ps true g)
  ∧ (∀ (fuel : Nat) (o : Obj) (props safeArg : Value) (g : Global),
        evalFn fuel (.body .mixinBody) o [props, safeArg] g
          = ((runMixin o (enumFields props) (toBool safeArg) g).1,
             (runMixin o (enumFields props) (toBool safeArg) g).2,
             .ok (.vObj (runMixin o (enumFields props) (toBool safeArg) g).1))) := by
  refine ⟨?_, ?_, ?_⟩
  · intro o ps g
    induction ps generalizing o g with
    | nil => rfl
    | cons kv t ih =>
        obtain ⟨k, v⟩ := kv
        simp [runMixin, ih]
  · intro o k v ps g
    by_cases h1 : isFun v
    · by_cases h2 : objHas o k
      · simp [runMixin, h1, h2]
      · simp [runMixin, h1, h2]
    · simp [runMixin, h1]
  · intro fuel o props safeArg g
    simp [evalFn]

/-- Claim C3, counterexample: a function (constructor) input and an
array input both satisfy `child instanceof Object`, so `extend` does
return a new Type for them, contradicting "for every input that is not
a plain object — in particular any function, any array — extend
returns no Type". -/
theorem c3_counterexample :
    ((extend legionBaseProto (.vTy []) legionG).1).isSome = true
  ∧ ((extend legionBaseProto (.vArr []) legionG).1).isSome = true := ⟨rfl, rfl⟩

/-- Claim C3 as amended: `extend` silently returns no Type and leaves
all state unchanged exactly for primitive inputs (`null`, `undefined`,
booleans, numbers, strings); for every non-primitive input — plain
objects, arrays, plain functions and constructors alike — it returns the
Type produced by `_extendSingle`. -/
theorem c3_extend_gate :
    (∀ (p : Obj) (g : Global),
        extend p .vNull g = (none, g)
      ∧ extend p .vUndefined g = (none, g)
      ∧ (∀ b, extend p (.vBool b) g = (none, g))
      ∧ (∀ n, extend p (.vNum n) g = (none, g))
      ∧ (∀ s, extend p (.vStr s) g = (none, g)))
  ∧ (∀ (p : Obj) (g : Global),
        (∀ fs, extend p (.vObj fs) g
            = (some (extendSingle p (.vObj fs) g).1, (extendSingle p (.vObj fs) g).2))
      ∧ (∀ es, extend p (.vArr es) g
            = (some (extendSingle p (.vArr es) g).1, (extendSingle p (.vArr es) g).2))
      ∧ (∀ f, extend p (.vFun f) g
            = (some (extendSingle p (.vFun f) g).1, (extendSingle p (.vFun f) g).2))
      ∧ (∀ q, extend p (.vTy q) g
            = (some (extendSingle p (.vTy q) g).1, (extendSingle p (.vTy q) g).2))) := by
  refine ⟨fun p g => ⟨rfl, rfl, fun b => rfl, fun n => rfl, fun s => rfl⟩,
          fun p g => ⟨fun fs => rfl, fun es => rfl, fun f => rfl, fun q => rfl⟩⟩

/-- Claim C4: no internal instantiation performed by `_extendSingle`,
`extend` or `implement` ever runs an `init` body (both run with the
`extending` flag set), so a counter incremented only by `init` is
unchanged by any extension — including one whose child definition is a
constructor that gets materialized — while explicitly constructing an
instance afterwards does increment it. -/
theorem c4_init_suppressed_during_extension :
    (∀ (p : Obj) (child : Value) (g : Global),
        ((extendSingle p child g).2).counter = g.counter)
  ∧ (∀ (p : Obj) (child : Value) (g : Global),
        ((extend p child g).2).counter = g.counter)
  ∧ (∀ (p : Obj) (child : Value) (g : Global),
        ((implement p child g).2).counter = g.counter)
  ∧ ((extendSingle countedProto (.vObj [("x", .vNum 1)]) g0).2).counter = 0
  ∧ ((extendSingle countedProto (.vTy countedProto) g0).2).counter = 0
  ∧ ((newObj 1 countedProto [] g0).2.1).counter = 1 := by
  refine ⟨extendSingle_counter, ?_, ?_, rfl, rfl, rfl⟩
  · intro p child g
    by_cases h : instanceOfObject child = true
    · simp [extend, h, extendSingle_counter]
    · simp [extend, h]
  · intro p child g
    cases child <;> simp [implement, extendSingle_counter, implementLoop_counter]

/-- Claim C5: `implement` on an array folds `_extendSingle` over the
items left to right — the Type produced from the first i items is the
one the (i+1)-th item extends — and returns the final accumulated
Type. -/
theorem c5_implement_sequential :
    (∀ (p : Obj) (ds : List Value) (g : Global),
        implement p (.vArr ds) g = implementLoop p ds g)
  ∧ (∀ (p : Obj) (d : Value) (ds : List Value) (g : Global),
        implementLoop p (d :: ds) g
          = implementLoop (extendSingle p d g).1 ds (extendSingle p d g).2)
  ∧ (∀ (ds : List Value) (p : Obj) (d : Value) (g : Global),
        implementLoop p (ds ++ [d]) g
          = extendSingle (implementLoop p ds g).1 d (implementLoop p ds g).2) := by
  refine ⟨fun p ds g => rfl, fun p d ds g => rfl, ?_⟩
  intro ds
  induction ds with
  | nil => intro p d g; rfl
  | cons e t ih => intro p d g; simp [implementLoop, ih]

/-- Claim C8: `serialize()` on any instance whose `serialize` method is
the base-class one returns a plain object with exactly the three keys
`id`, `clientID`, `className`, holding the instance's current values,
and changes nothing. -/
theorem c8_serialize (o : Obj) (g : Global) (fuel : Nat)
    (h : objGet o "serialize" = .vFun (.body .serializeBody)) :
    callMethod fuel o "serialize" [] g
      = (o, g, .ok (.vObj [("id", objGet o "id"), ("clientID", objGet o "clientID"),
                           ("className", objGet o "className")])) := by
  simp [callMethod, h, evalFn]

/-- Witness for C8: `serialize()` on a freshly produced base-class
instance. -/
theorem c8_serialize_witness :
    callMethod 0 legionBaseProto "serialize" [] legionG
      = (legionBaseProto, legionG,
         .ok (.vObj [("id", .vNull), ("clientID", .vNull), ("className", .vStr "Class")])) := by
  have h := c8_serialize legionBaseProto legionG 0 rfl
  rw [h]
  exact rfl

/-- Claim C9: when the child implementation inside a `createParent`
wrapper throws, the wrapper's restore line never runs: the exception
propagates and `this.parent` is left bound to the overridden (parent)
implementation. -/
theorem c9_throw_skips_restore (pf : Fn) (o : Obj) (args : List Value) (g : Global) (n : Nat) :
    evalFn (n + 1) (.wrapped (.body .throwErr) pf) o args g
      = (objSet o "parent" (.vFun pf), g, .error .thrown)
  ∧ objGet (evalFn (n + 1) (.wrapped (.body .throwErr) pf) o args g).1 "parent"
      = .vFun pf := by
  refine ⟨by simp [evalFn], ?_⟩
  have h : evalFn (n + 1) (.wrapped (.body .throwErr) pf) o args g
      = (objSet o "parent" (.vFun pf), g, .error .thrown) := by simp [evalFn]
  rw [h]
  exact objGet_objSet_self o "parent" (.vFun pf)

/-- Claim C7: extending with a definition that has no `className`
produces a Type inheriting the parent's `className`, and the new Type is
registered in the process-wide registry under that inherited name,
overwriting any prior entry of the same name. -/
theorem c7_className_inherited (p : Obj) (fs : List (String × Value)) (g : Global)
    (h : objHas fs "className" = false) :
    objGet (extendSingle p (.vObj fs) g).1 "className" = objGet p "className"
  ∧ ((extendSingle p (.vObj fs) g).2).classes
      = regSet g.classes (jsToString (objGet p "className"))
          ((extendSingle p (.vObj fs) g).1) := by
  have h1 : objGet (assignChild p fs) "className" = objGet p "className" :=
    assignChild_objGet_not_has fs p "className" h
  constructor
  · rw [extendSingle_vObj_proto]
    exact h1
  · rw [extendSingle_vObj_classes, extendSingle_vObj_proto, h1]

/-- Witness for C7: extending the base Class with `{x: 1}` yields a
Type whose `className` is still `'Class'`, registered under
`'Class'`. -/
theorem c7_witness :
    objGet (extendSingle legionBaseProto (.vObj [("x", .vNum 1)]) legionG).1 "className"
      = .vStr "Class"
  ∧ ((extendSingle legionBaseProto (.vObj [("x", .vNum 1)]) legionG).2).classes
      = regSet legionG.classes "Class"
          ((extendSingle legionBaseProto (.vObj [("x", .vNum 1)]) legionG).1) := by
  have h := c7_className_inherited legionBaseProto [("x", .vNum 1)] legionG rfl
  refine ⟨?_, ?_⟩
  · rw [h.1]
    exact rfl
  · rw [h.2]
    exact rfl

/-- Claim C10: on a Type with the inherited default `init` and `mixin`,
constructing an instance with no arguments succeeds: `init` receives an
absent (`undefined`) properties argument, the mixin loop enumerates zero
keys, and the instance is exactly the prototype copy with nothing else
assigned. -/
theorem c10_default_construction (p : Obj) (g : Global) (n : Nat)
    (hi : objGet p "init" = .vFun (.body .initBody))
    (hm : objGet p "mixin" = .vFun (.body .mixinBody))
    (hx : g.extending = false) :
    newObj (n + 1) p [] g = (p, g, .ok ()) := by
  simp [newObj, hx, hi, evalFn, hm, enumFields, runMixin, List.getD]

/-- Witness for C10: `new Class()` with no arguments on the base
Class. -/
theorem c10_witness :
    newObj 1 legionBaseProto [] legionG = (legionBaseProto, legionG, .ok ()) :=
  c10_default_construction legionBaseProto legionG 0 rfl rfl rfl

/-- Claim C6: `_bindGame` is an idempotent identity binding.  A
non-null `id` is never reassigned by any later `_bindGame` call, with
any context object; likewise for a non-null `clientID`; with both
already assigned the call only (re)assigns `game` and returns.  On a
bind where `id` is still unset (null) and the context object is truthy,
`id` receives the value returned by the context's identifier allocator;
on a bind where `clientID` is still unset and `id` is already set,
`clientID` adopts the context's `clientID`.  (The base-class fields
document `null` as the unassigned state for both `id` and `clientID`,
so "assigned" is formalized as non-null.) -/
theorem c6_bind_idempotent (o : Obj) (game : Value) (g : Global) (fuel : Nat) :
    (isNull (objGet o "id") = false →
        objGet ((evalFn fuel (.body .bindGameBody) o [game] g).1) "id" = objGet o "id")
  ∧ (isNull (objGet o "clientID") = false →
        objGet ((evalFn fuel (.body .bindGameBody) o [game] g).1) "clientID"
          = objGet o "clientID")
  ∧ (isNull (objGet o "id") = false → isNull (objGet o "clientID") = false →
        evalFn fuel (.body .bindGameBody) o [game] g
          = (objSet o "game" game, g, .ok .vUndefined))
  ∧ (∀ (n : Nat) (f : Fn) (go : Obj) (g' : Global) (v : Value),
        toBool game = true → isNull (objGet o "id") = true →
        valGet game "_getObjectID" = .vFun f →
        evalFn n f (gameFields game) [] g = (go, g', .ok v) →
        objGet ((evalFn (n + 1) (.body .bindGameBody) o [game] g).1) "id" = v)
  ∧ (toBool game = true → isNull (objGet o "id") = false →
        isNull (objGet o "clientID") = true →
        evalFn fuel (.body .bindGameBody) o [game] g
          = (objSet (objSet o "game" game) "clientID" (valGet game "clientID"),
             g, .ok .vUndefined)) := by
  have hgid : objGet (objSet o "game" game) "id" = objGet o "id" :=
    objGet_objSet_ne o "game" "id" game (by decide)
  have hgcid : objGet (objSet o "game" game) "clientID" = objGet o "clientID" :=
    objGet_objSet_ne o "game" "clientID" game (by decide)
  refine ⟨?_, ?_, ?_, ?_, ?_⟩
  · intro ha
    cases hg : toBool game
    · simp [evalFn, hg, hgid]
    · cases hc : isNull (objGet o "clientID")
      · simp [evalFn, hg, hgid, ha, hgcid, hc]
      · simp [evalFn, hg, hgid, ha, hgcid, hc]
        rw [objGet_objSet_ne _ _ _ _ (by decide : "clientID" ≠ "id")]
        exact hgid
  · intro hc
    cases hg : toBool game
    · simp [evalFn, hg, hgcid]
    · cases hid : isNull (objGet o "id")
      · simp [evalFn, hg, hgid, hid, hgcid, hc]
      · cases hv : valGet game "_getObjectID" <;>
          first
          | (simp [evalFn, hg, hgid, hid, hv, hgcid]; done)
          | skip
        case vFun f =>
          cases fuel with
          | zero => simp [evalFn, hg, hgid, hid, hv, hgcid]
          | succ n =>
              rcases hre : evalFn n f (gameFields game) [] g with ⟨go, g', res⟩
              cases res with
              | ok v =>
                  have h2 : objGet (objSet (objSet o "game" game) "id" v) "clientID"
                      = objGet o "clientID" := by
                    rw [objGet_objSet_ne _ _ _ _ (by decide : "id" ≠ "clientID")]
                    exact hgcid
                  simp [evalFn, hg, hgid, hid, hv, hre, h2, hc]
              | error e => simp [evalFn, hg, hgid, hid, hv, hre, hgcid]
  · intro ha hc
    cases hg : toBool game
    · simp [evalFn, hg]
    · simp [evalFn, hg, hgid, ha, hgcid, hc]
  · intro n f go g' v hg hid hv hre
    by_cases hc : isNull (objGet (objSet (objSet o "game" game) "id" v) "clientID") = true
    · simp [evalFn, hg, hgid, hid, hv, hre, hc]
      rw [objGet_objSet_ne _ _ _ _ (by decide : "clientID" ≠ "id")]
      exact objGet_objSet_self (objSet o "game" game) "id" v
    · simp [evalFn, hg, hgid, hid, hv, hre, hc]
      exact objGet_objSet_self (objSet o "game" game) "id" v
  · intro hg ha hc
    simp [evalFn, hg, hgid, ha, hgcid, hc]

/-- Witness for C6: an instance whose `id` and `clientID` are already
assigned is unchanged (except for the `game` field) by a further bind
to a different game context. -/
theorem c6_witness :
    evalFn 3 (.body .bindGameBody) [("id", .vNum 7), ("clientID", .vStr "c")] [gameB] g0
      = (objSet [("id", .vNum 7), ("clientID", .vStr "c")] "game" gameB, g0, .ok .vUndefined) :=
  (c6_bind_idempotent [("id", .vNum 7), ("clientID", .vStr "c")] gameB g0 3).2.2.1 rfl rfl

/-- Extending a prototype whose `speak` is a function with a
`speak`-only override wraps the old implementation under the new one via
`createParent`. -/
theorem extendSingle_speakOverride (p : Obj) (g : Global) (f : Fn) (s : String)
    (h : objGet p "speak" = .vFun f) :
    (extendSingle p (speakOverride s) g).1
      = objSet p "speak" (.vFun (.wrapped (.body (.concatParent s)) f)) := by
  simp [extendSingle, newObj, speakOverride, enumFields, assignChild, mergedVal, h, toFn]

/-- A chain of `speak` overrides builds the nested `createParent`
wrappers `wrapChain f ss` in the `speak` slot, leaves every other
prototype key unchanged, and keeps the `extending` flag cleared. -/
theorem chainProto_props (ss : List String) :
    ∀ (p : Obj) (g : Global) (f : Fn), objGet p "speak" = .vFun f →
      objGet (chainProto p ss g).1 "speak" = .vFun (wrapChain f ss)
    ∧ (∀ k, k ≠ "speak" → objGet (chainProto p ss g).1 k = objGet p k)
    ∧ (g.extending = false → ((chainProto p ss g).2).extending = false) := by
  induction ss with
  | nil => exact fun p g f h => ⟨h, fun k _ => rfl, fun hx => hx⟩
  | cons s rest ih =>
      intro p g f h
      have hp : (extendSingle p (speakOverride s) g).1
          = objSet p "speak" (.vFun (.wrapped (.body (.concatParent s)) f)) :=
        extendSingle_speakOverride p g f s h
      have hsp : objGet (extendSingle p (speakOverride s) g).1 "speak"
          = .vFun (.wrapped (.body (.concatParent s)) f) := by
        rw [hp]
        exact objGet_objSet_self p "speak" _
      obtain ⟨h1, h2, _⟩ :=
        ih (extendSingle p (speakOverride s) g).1 (extendSingle p (speakOverride s) g).2 _ hsp
      refine ⟨?_, ?_, ?_⟩
      · simpa [chainProto, wrapChain] using h1
      · intro k hk
        have hstep : objGet (extendSingle p (speakOverride s) g).1 k = objGet p k := by
          rw [hp]
          exact objGet_objSet_ne p "speak" k _ (Ne.symm hk)
        have := h2 k hk
        rw [hstep] at this
        simpa [chainProto] using this
      · intro _
        have hx1 : ((extendSingle p (speakOverride s) g).2).extending = false :=
          extendSingle_extending p (speakOverride s) g
        obtain ⟨_, _, h3⟩ :=
          ih (extendSingle p (speakOverride s) g).1 (extendSingle p (speakOverride s) g).2 _ hsp
        simpa [chainProto] using h3 hx1

/-- Evaluating the nested wrappers of a `speak` chain: with fuel two per
level, the call returns the parent results concatenated
outermost-first, restores `this.parent` to its pre-call value, and
leaves every readable property of the instance as it was. -/
theorem wrapChain_eval (ss : List String) :
    ∀ (f : Fn) (m : Nat) (r : String),
      (∀ (o : Obj) (g : Global), ∃ o', evalFn m f o [] g = (o', g, .ok (.vStr r))
          ∧ ∀ k, objGet o' k = objGet o k) →
      ∀ (o : Obj) (g : Global), ∃ o',
        evalFn (2 * ss.length + m) (wrapChain f ss) o [] g
          = (o', g, .ok (.vStr (chainStr ss r)))
        ∧ ∀ k, objGet o' k = objGet o k := by
  induction ss with
  | nil =>
      intro f m r hf o g
      simpa [wrapChain, chainStr] using hf o g
  | cons s rest ih =>
      intro f m r hf o g
      have hf2 : ∀ (o : Obj) (g : Global), ∃ o',
          evalFn (m + 2) (.wrapped (.body (.concatParent s)) f) o [] g
            = (o', g, .ok (.vStr (s ++ r))) ∧ ∀ k, objGet o' k = objGet o k := by
        intro o g
        obtain ⟨o', h1, h2⟩ := hf (objSet o "parent" (.vFun f)) g
        have hpar : objGet (objSet o "parent" (.vFun f)) "parent" = .vFun f :=
          objGet_objSet_self o "parent" (.vFun f)
        refine ⟨objSet o' "parent" (objGet o "parent"), ?_, ?_⟩
        · show evalFn (m + 1 + 1) (.wrapped (.body (.concatParent s)) f) o [] g = _
          simp [evalFn, hpar, h1, jsToString]
        · intro k
          by_cases hk : k = "parent"
          · subst hk
            exact objGet_objSet_self o' "parent" (objGet o "parent")
          · rw [objGet_objSet_ne o' "parent" k _ (fun hh => hk hh.symm), h2 k,
                objGet_objSet_ne o "parent" k _ (fun hh => hk hh.symm)]
      obtain ⟨o', h1, h2⟩ := ih (.wrapped (.body (.concatParent s)) f) (m + 2) (s ++ r) hf2 o g
      refine ⟨o', ?_, h2⟩
      have harith : 2 * (s :: rest).length + m = 2 * rest.length + (m + 2) := by
        simp [List.length_cons]
        ring
      rw [harith]
      simpa [wrapChain, chainStr] using h1

/-- Claim C1: for any chain of extensions each overriding `speak` on a
base whose `speak` returns the constant `b`, constructing an instance
succeeds (yielding the prototype copy) and invoking `speak` on it
returns the prefixes concatenated outermost-to-innermost followed by
`b`: every `this.parent()` call reaches exactly the immediately
preceding implementation, with the base implementation called last.  In
particular `chainStr ["child-"] "base" = "child-base"`. -/
theorem c1_parent_chain (p : Obj) (g : Global) (b : String) (ss : List String)
    (hs : objGet p "speak" = .vFun (.body (.retStr b)))
    (hi : objGet p "init" = .vFun (.body .initBody))
    (hm : objGet p "mixin" = .vFun (.body .mixinBody))
    (hx : g.extending = false) :
    newObj 1 (chainProto p ss g).1 [] (chainProto p ss g).2
        = ((chainProto p ss g).1, (chainProto p ss g).2, .ok ())
    ∧ ∃ o', callMethod (2 * ss.length) (chainProto p ss g).1 "speak" [] (chainProto p ss g).2
          = (o', (chainProto p ss g).2, .ok (.vStr (chainStr ss b)))
        ∧ ∀ k, objGet o' k = objGet (chainProto p ss g).1 k := by
  obtain ⟨h1, h2, h3⟩ := chainProto_props ss p g _ hs
  constructor
  · have hi' : objGet (chainProto p ss g).1 "init" = .vFun (.body .initBody) := by
      rw [h2 "init" (by decide)]
      exact hi
    have hm' : objGet (chainProto p ss g).1 "mixin" = .vFun (.body .mixinBody) := by
      rw [h2 "mixin" (by decide)]
      exact hm
    exact c10_default_construction _ _ 0 hi' hm' (h3 hx)
  · have hbase : ∀ (o : Obj) (gg : Global), ∃ o',
        evalFn 0 (.body (.retStr b)) o [] gg = (o', gg, .ok (.vStr b))
        ∧ ∀ k, objGet o' k = objGet o k :=
      fun o gg => ⟨o, by simp [evalFn], fun k => rfl⟩
    obtain ⟨o', he, hk⟩ :=
      wrapChain_eval ss (.body (.retStr b)) 0 b hbase (chainProto p ss g).1 (chainProto p ss g).2
    refine ⟨o', ?_, hk⟩
    rw [Nat.add_zero] at he
    simpa [callMethod, h1] using he

/-- Witness for C1: the end-to-end scenario — `Base` with
`className: 'Base'` and `speak` returning `'base'`, extended to `Child`
whose `speak` returns `'child-' + this.parent()`; a constructed `Child`
instance's `speak()` returns `'child-base'`. -/
theorem c1_witness :
    newObj 1 c1Child.1 [] c1Child.2 = (c1Child.1, c1Child.2, .ok ())
    ∧ (callMethod 2 c1Child.1 "speak" [] c1Child.2).2.2 = .ok (.vStr "child-base") := by
  obtain ⟨hnew, o', he, -⟩ :=
    c1_parent_chain c1Base.1 c1Base.2 "base" ["child-"] rfl rfl rfl rfl
  refine ⟨hnew, ?_⟩
  show (callMethod (2 * (["child-"] : List String).length)
      (chainProto c1Base.1 ["child-"] c1Base.2).1 "speak" []
      (chainProto c1Base.1 ["child-"] c1Base.2).2).2.2 = .ok (.vStr "child-base")
  rw [he]
  exact rfl

end Legion
